import Mathlib

/-!
Verification of the go-scheduling-service core: the free-slot generation
algorithm (`GenerateAvailableSlots` / `isBusy` / `formatSlot` in
`internal/logic`), the agent resolver (`MapAgent` in
`internal/logic/mapper.go`), the pipeline orchestrator (`HandleRequest` in
`cmd/main.go`) and the message formatter (`formatMessage`).

Shallow embedding of the time model: every Go `time.Time` instant is an
integer number of seconds on the local wall-clock timeline of the fixed
target timezone ("America/Los_Angeles", modelled with a fixed UTC offset,
so converting an instant into the location — Go's `.In(loc)` — is the
identity and wall-clock arithmetic is plain integer arithmetic). Second 0
is the local midnight opening a Monday, so day index `t / 86400` has
weekday `dayIndex % 7` with Monday = 0, …, Friday = 4, Saturday = 5,
Sunday = 6.  `Int./` and `Int.%` are Euclidean, which for the positive
literal divisors used here coincide with floor division and hence with
Go's calendar field computations (`Year/Month/Day`, `Minute`,
`Truncate`), correctly also for instants before the epoch.  Go's
sub-second precision is immaterial: every quantity the algorithm
constructs or compares is a whole number of seconds once the reference
instant is (display strings such as "Friday, December 6, 2025" and
"3:04 PM" are represented by the integer data that determines them in the
fixed timezone: the day index and the second-of-day).
-/

/-- One day, in seconds. -/
def secPerDay : Int := 86400

/-- `SlotDuration = 30 * time.Minute`, in seconds. -/
def slotDurationSec : Int := 1800

/-- `WorkStartHour = 9` as a second-of-day. -/
def workStartSec : Int := 9 * 3600

/-- `WorkEndHour = 17` as a second-of-day. -/
def workEndSec : Int := 17 * 3600

/-- Friday's short end, 15:30, as a second-of-day. -/
def fridayEndSec : Int := 15 * 3600 + 1800

/-- `MaxDays = 7`. -/
def maxDays : Nat := 7

/-- The local calendar day holding an instant (floor division; divisor
positive so Euclidean = floor). This models Go's `Year()/Month()/Day()`
triple as a single day index. -/
def dayIndexOf (t : Int) : Int := t / secPerDay

/-- Go's `Weekday()` for the day of an instant, recoded with Monday = 0,
Tuesday = 1, …, Friday = 4, Saturday = 5, Sunday = 6 (second 0 opens a
Monday). -/
def weekdayOf (t : Int) : Int := dayIndexOf t % 7

/-- Second-of-day of an instant: models the wall-clock time of day. -/
def secondOfDay (t : Int) : Int := t % secPerDay

/-- Go's `Minute()`: the minute within the hour, `0..59`. -/
def minuteOf (t : Int) : Int := (t / 60) % 60

/-- Go's `Truncate(time.Minute)`: round down to a whole minute (the target
timezone's offset is a whole number of minutes, so Go's
truncation-since-zero-time lands on the same wall-clock minute marks). -/
def truncateMinute (t : Int) : Int := 60 * (t / 60)

/-- `models.TimeRange`: a half-open busy interval `[Start, End)`. -/
structure TimeRange where
  Start : Int
  End : Int
deriving Repr, DecidableEq

/-- `models.TimeSlot`: a generated slot with its two display fields.
`Date` stands for the Go string `start.Format("Monday, January 2, 2006")`
(determined by, and determining, the local day index) and `Time` for
`start.Format("3:04 PM")` (determined by the second-of-day). -/
structure TimeSlot where
  Date : Int
  Time : Int
  Start : Int
  End : Int
deriving Repr, DecidableEq

/-- `formatSlot` from `internal/logic`: attach the display fields. -/
def formatSlot (start «end» : Int) : TimeSlot :=
  { Date := dayIndexOf start, Time := secondOfDay start, Start := start, End := «end» }

/-- `isBusy` from `internal/logic`: the candidate `[start, end)` overlaps
some busy interval, `start.Before(busyEnd) && end.After(busyStart)`.
Converting the busy bounds into the slot's location (`.In(loc)`) does not
change the instant, so it is the identity here. -/
def isBusy (start «end» : Int) (busy : List TimeRange) : Bool :=
  busy.any fun b => decide (start < b.End) && decide (b.Start < «end»)

/-- The inner slot walk of `GenerateAvailableSlots`:
`for curr.Add(SlotDuration).Before(workEnd) || curr.Add(SlotDuration).Equal(workEnd)`.
Returns the free slots emitted and the number of candidates counted
(`totalSlots`). The `fuel` argument only bounds the recursion: the walk
advances `curr` by 1800 each step, so fuel `(workEnd - curr).toNat`
(supplied by `slotWalk`) can never run out while the loop condition still
holds, and the function agrees with the unbounded while loop. -/
def slotLoop (busy : List TimeRange) (workEnd : Int) :
    Nat → Int → List TimeSlot × Nat
  | 0, _ => ([], 0)
  | fuel + 1, curr =>
    if curr + slotDurationSec ≤ workEnd then
      let slotEnd := curr + slotDurationSec
      let rest := slotLoop busy workEnd fuel slotEnd
      (if isBusy curr slotEnd busy then rest.1 else formatSlot curr slotEnd :: rest.1,
       rest.2 + 1)
    else ([], 0)

/-- The inner slot walk started at `workStart` with sufficient fuel. -/
def slotWalk (busy : List TimeRange) (workStart workEnd : Int) : List TimeSlot × Nat :=
  slotLoop busy workEnd (workEnd - workStart).toNat workStart

/-- The body of one non-weekend iteration of the day loop of
`GenerateAvailableSlots`: fix the work hours of the day holding `dayDate`
(Friday ends 15:30), raise the start past `minStartTime` with the
round-up-to-30-minutes-and-truncate-to-the-minute adjustment, and walk the
slots. `([], 0)` is the `continue` when the raised start falls after the
day's end. -/
def processDay (busy : List TimeRange) (minStartTime dayDate : Int) :
    List TimeSlot × Nat :=
  let di := dayIndexOf dayDate
  let workStart := di * secPerDay + workStartSec
  let workEnd :=
    if weekdayOf dayDate = 4 then di * secPerDay + fridayEndSec
    else di * secPerDay + workEndSec
  if workStart < minStartTime then
    let ws := minStartTime
    if workEnd < ws then ([], 0)
    else
      let remainder := minuteOf ws % 30
      let add := if remainder ≠ 0 then 30 - remainder else 0
      let ws := ws + add * 60
      let ws := truncateMinute ws
      slotWalk busy ws workEnd
  else
    slotWalk busy workStart workEnd

/-- The day loop `for d := 0; d < MaxDays; d++` of `GenerateAvailableSlots`
over the remaining day offsets: skip weekends without counting them,
otherwise count the day and append its slots and candidate total. -/
def dayLoop (busy : List TimeRange) (minStartTime startSearch : Int) :
    List Nat → List TimeSlot × Nat × Nat
  | [] => ([], 0, 0)
  | d :: ds =>
    let dayDate := startSearch + (d : Int) * secPerDay
    if weekdayOf dayDate = 5 ∨ weekdayOf dayDate = 6 then
      dayLoop busy minStartTime startSearch ds
    else
      let day := processDay busy minStartTime dayDate
      let rest := dayLoop busy minStartTime startSearch ds
      (day.1 ++ rest.1, rest.2.1 + 1, rest.2.2 + day.2)

/-- `GenerateAvailableSlots` from `internal/logic`: free slots, the number
of business days checked, and the total candidate-slot count, over the 7
consecutive days starting at the reference instant's day, with the 2-hour
minimum-start buffer. `referenceTime.In(loc)` is the identity in the
fixed-offset model, and `AddDate(0, 0, d)` adds `d` wall-clock days. -/
def GenerateAvailableSlots (busySlots : List TimeRange) (referenceTime : Int) :
    List TimeSlot × Nat × Nat :=
  let minStartTime := referenceTime + 2 * 3600
  let startSearch := referenceTime
  dayLoop busySlots minStartTime startSearch (List.range maxDays)

/-- `models.AgentInfo`. -/
structure AgentInfo where
  ID : String
  Name : String
  Email : String
  Zone : String
  ZoneGroup : String
deriving Repr, DecidableEq

/-- `models.AppFolioGroup`. -/
structure AppFolioGroup where
  ID : String
  Name : String
deriving Repr, DecidableEq

/-- The static `PDAgentMap` of `internal/logic/mapper.go`, as the lookup
function of the Go map (`ZoneGroup` is the zero value `""` in each stored
record). -/
def PDAgentMap : String → Option AgentInfo := fun name =>
  if name = "PD1" then
    some ⟨"59a26c67-5791-11f0-b6c3-02094d1ce055", "Gracie",
      "gracie@ltrealestateco.com", "PD1", ""⟩
  else if name = "PD2" then
    some ⟨"dcb80b8a-66bd-11ee-b6c3-02094d1ce055", "Elizabeth",
      "elizabeth@ltrealestateco.com", "PD2", ""⟩
  else if name = "PD3" then
    some ⟨"4d6b75fd-5791-11f0-b6c3-02094d1ce055", "Alexandra",
      "alexandra@ltrealestateco.com", "PD3", ""⟩
  else if name = "PD4" then
    some ⟨"4b8f5454-ef30-11ef-b6c3-02094d1ce055", "Brandi",
      "brandi@ltrealestateco.com", "PD4", ""⟩
  else none

/-- Go's `strings.ToUpper`, on the character sequence (`Char.toUpper` is
the ASCII case map, which covers every key of the zone table). -/
def goToUpper (s : String) : String := ⟨s.data.map Char.toUpper⟩

/-- Go's `strings.TrimSpace`: drop leading and trailing whitespace. -/
def goTrimSpace (s : String) : String :=
  ⟨((s.data.dropWhile Char.isWhitespace).reverse.dropWhile Char.isWhitespace).reverse⟩

/-- The normalisation `strings.ToUpper(strings.TrimSpace(name))` applied
to a group name in `MapAgent`. -/
def normalizeGroupName (name : String) : String := goToUpper (goTrimSpace name)

/-- `MapAgent` from `internal/logic/mapper.go`: walk the groups in order,
normalise each name, return the first hit with the original group name
attached as `ZoneGroup`, and `nil` (`none`) when no group matches. -/
def MapAgent : List AppFolioGroup → Option AgentInfo
  | [] => none
  | group :: rest =>
    match PDAgentMap (normalizeGroupName group.Name) with
    | some agent => some { agent with ZoneGroup := group.Name }
    | none => MapAgent rest

/-- `models.AppFolioProperty`. -/
structure AppFolioProperty where
  ID : String
  Name : String
  Address1 : String
  City : String
  State : String
  PropertyGroupIds : List String
deriving Repr, DecidableEq

/-- `models.PropertyInfo`. -/
structure PropertyInfo where
  ID : String
  Name : String
  Address : String
  City : String
  State : String
deriving Repr, DecidableEq

/-- `models.Availability`. -/
structure Availability where
  TotalSlotsAvailable : Nat
  DaysChecked : Nat
  Slots : List TimeSlot
deriving Repr, DecidableEq

/-- `models.Response`. -/
structure Response where
  Success : Bool
  Property : PropertyInfo
  Agent : AgentInfo
  Availability : Availability
  Message : String
  FormattedMsg : String
deriving Repr, DecidableEq

/-- Go's zero value for `PropertyInfo` (fields left unset in a literal). -/
def PropertyInfo.zero : PropertyInfo := ⟨"", "", "", "", ""⟩

/-- Go's zero value for `AgentInfo`. -/
def AgentInfo.zero : AgentInfo := ⟨"", "", "", "", ""⟩

/-- Go's zero value for `Availability`. -/
def Availability.zero : Availability := ⟨0, 0, []⟩

/-- `mapPropertyInfo` from `cmd/main.go`. -/
def mapPropertyInfo (p : AppFolioProperty) : PropertyInfo :=
  { ID := p.ID, Name := p.Name, Address := p.Address1, City := p.City, State := p.State }

/-- `limitSlots` from `cmd/main.go`. -/
def limitSlots (slots : List TimeSlot) (max : Nat) : List TimeSlot :=
  if slots.length > max then slots.take max else slots

/-- The display rendering of a slot's date, standing for the Go string
`slot.Date` (injective in the day index, so grouping and printing by it is
the same as by the Go display string). -/
def dateText (d : Int) : String := toString d

/-- The display rendering of a slot's time, standing for the Go string
`slot.Time`. -/
def timeText (t : Int) : String := toString t

/-- The grouping step of `formatMessage`: the Go `slotsByDate` map together
with the `orderedDates` first-seen key list, realised as an ordered
association list from date to the times appended in slot order. -/
def insertSlot (acc : List (Int × List Int)) (date t : Int) : List (Int × List Int) :=
  match acc with
  | [] => [(date, [t])]
  | (d, ts) :: rest =>
    if d = date then (d, ts ++ [t]) :: rest else (d, ts) :: insertSlot rest date t

/-- Group the slots by date, first-seen date order, time order preserved
within a date (the `for _, slot := range avail.Slots` loop of
`formatMessage`). -/
def groupByDate (slots : List TimeSlot) : List (Int × List Int) :=
  slots.foldl (fun acc s => insertSlot acc s.Date s.Time) []

/-- The inner `for i, t := range times` loop of `formatMessage`: list the
first 6 times as bullet lines; on reaching index 6 with a time left,
append the `...N more times available` summary and stop. `n` is
`len(times)`. -/
def formatTimesLoop (n : Nat) : Nat → List Int → String
  | _, [] => ""
  | i, t :: ts =>
    if i ≥ 6 then "  • ..." ++ toString (n - 6) ++ " more times available\n"
    else "  • " ++ timeText t ++ "\n" ++ formatTimesLoop n (i + 1) ts

/-- The outer `for _, date := range orderedDates` loop of `formatMessage`
with its running `count` and the `count >= 5` break. -/
def formatDatesLoop : Nat → List (Int × List Int) → String
  | _, [] => ""
  | count, (date, times) :: rest =>
    if count ≥ 5 then ""
    else
      dateText date ++ ":\n" ++ formatTimesLoop times.length 0 times ++ "\n" ++
        formatDatesLoop (count + 1) rest

/-- `formatMessage` from `cmd/main.go` (`totalGenerated` is accepted and
unused there too). -/
def formatMessage (prop : PropertyInfo) (agent : AgentInfo) (avail : Availability)
    (_totalGenerated : Nat) : String :=
  let msg := "🏠 PROPERTY: " ++ prop.Name ++ "\n📍 " ++ prop.Address ++ ", " ++
    prop.City ++ ", " ++ prop.State ++ "\n\n" ++
    "👤 LEASING AGENT: " ++ agent.Name ++ "\n📧 Email: " ++ agent.Email ++ "\n\n"
  if avail.Slots = [] then
    msg ++ "📅 SHOWING AVAILABILITY:\nNo available time slots found in the next " ++
      toString avail.DaysChecked ++ " days.\n" ++
      agent.Name ++ "'s calendar is fully booked.\n\n" ++
      "📞 Please contact " ++ agent.Name ++ " directly at " ++ agent.Email ++
      " to schedule."
  else
    let grouped := groupByDate avail.Slots
    msg ++ "📅 AVAILABLE SHOWING TIMES:\n\n" ++ formatDatesLoop 0 grouped ++
      (if grouped.length > 5 then
        "...and " ++ toString (grouped.length - 5) ++ " more days with availability\n"
      else "") ++
      "\n📞 Contact " ++ agent.Name ++ " at " ++ agent.Email ++
      " to schedule your showing."

/-- The outcomes of the five external collaborator calls of one
`HandleRequest` invocation (`none` = the call returned an error); the pure
pipeline is a function of these. -/
structure CollabResults where
  searchResult : Option String
  propertyResult : Option AppFolioProperty
  groupsResult : Option (List AppFolioGroup)
  tokenResult : Option String
  busyResult : Option (List TimeRange)

/-- Steps 4–11 of `HandleRequest` from `cmd/main.go`: the five-stage
pipeline over the collaborator outcomes, producing the `models.Response`
that `successResponse` serialises. Each failure terminates with
`Success := false` and whatever property/agent data was already resolved,
exactly as the Go response literals build it. -/
def runPipeline (query extractedPropertyID : String) (c : CollabResults) (now : Int) :
    Response :=
  match (if extractedPropertyID ≠ "" then some extractedPropertyID else c.searchResult) with
  | none =>
    { Success := false, Property := PropertyInfo.zero, Agent := AgentInfo.zero,
      Availability := Availability.zero,
      Message := "Could not find property matching query.",
      FormattedMsg := "I couldn't find a property matching '" ++ query ++
        "'. Could you verify the address?" }
  | some _propID =>
    match c.propertyResult with
    | none =>
      { Success := false, Property := PropertyInfo.zero, Agent := AgentInfo.zero,
        Availability := Availability.zero,
        Message := "Property found but details unavailable.",
        FormattedMsg := "I found the property but couldn't access its details right now." }
    | some prop =>
      match c.groupsResult with
      | none =>
        { Success := false, Property := mapPropertyInfo prop, Agent := AgentInfo.zero,
          Availability := Availability.zero,
          Message := "Could not determine agent.",
          FormattedMsg := "I have the details for " ++ prop.Address1 ++
            ", but I'm having trouble finding the assigned agent." }
      | some groups =>
        match MapAgent groups with
        | none =>
          { Success := false, Property := mapPropertyInfo prop, Agent := AgentInfo.zero,
            Availability := Availability.zero,
            Message := "No leasing agent assigned (No PD group).",
            FormattedMsg := "I checked " ++ prop.Address1 ++
              ", but there doesn't seem to be a leasing agent assigned to it yet." }
        | some agent =>
          match c.tokenResult with
          | none =>
            { Success := false, Property := mapPropertyInfo prop, Agent := agent,
              Availability := Availability.zero,
              Message := "Agent calendar access unavailable.",
              FormattedMsg := "I'd love to schedule a viewing for " ++ prop.Address1 ++
                ", but I can't access " ++ agent.Name ++
                "'s calendar right now. Please email them at " ++ agent.Email ++ "." }
          | some _token =>
            match c.busyResult with
            | none =>
              { Success := false, Property := mapPropertyInfo prop, Agent := agent,
                Availability := Availability.zero,
                Message := "Failed to read calendar.",
                FormattedMsg := "I'm having trouble checking " ++ agent.Name ++
                  "'s availability. Please contact them directly at " ++
                  agent.Email ++ "." }
            | some busySlots =>
              let generated := GenerateAvailableSlots busySlots now
              let avail : Availability :=
                { TotalSlotsAvailable := generated.1.length,
                  DaysChecked := generated.2.1,
                  Slots := limitSlots generated.1 30 }
              { Success := true, Property := mapPropertyInfo prop, Agent := agent,
                Availability := avail,
                Message := "Success",
                FormattedMsg := formatMessage (mapPropertyInfo prop) agent avail
                  generated.2.2 }

/-! ### The candidate windows, for the counting claim -/

/-- Modelled from the spec: the sequence of candidate windows
`(curr, curr + 30 min)` the slot walk considers ("each slot is a
candidate"), independent of the busy list. Mirrors `slotLoop` without the
busy filter. -/
def candidateLoop (workEnd : Int) : Nat → Int → List (Int × Int)
  | 0, _ => []
  | fuel + 1, curr =>
    if curr + slotDurationSec ≤ workEnd then
      (curr, curr + slotDurationSec) ::
        candidateLoop workEnd fuel (curr + slotDurationSec)
    else []

/-- Modelled from the spec: the candidate windows of one business day,
mirroring `processDay`. -/
def dayCandidates (minStartTime dayDate : Int) : List (Int × Int) :=
  let di := dayIndexOf dayDate
  let workStart := di * secPerDay + workStartSec
  let workEnd :=
    if weekdayOf dayDate = 4 then di * secPerDay + fridayEndSec
    else di * secPerDay + workEndSec
  if workStart < minStartTime then
    let ws := minStartTime
    if workEnd < ws then []
    else
      let remainder := minuteOf ws % 30
      let add := if remainder ≠ 0 then 30 - remainder else 0
      let ws := ws + add * 60
      let ws := truncateMinute ws
      candidateLoop workEnd (workEnd - ws).toNat ws
  else
    candidateLoop workEnd (workEnd - workStart).toNat workStart

/-- Modelled from the spec: all candidate windows of the 7-day search, in
order, mirroring `dayLoop`. -/
def windowCandidates (minStartTime startSearch : Int) : List Nat → List (Int × Int)
  | [] => []
  | d :: ds =>
    let dayDate := startSearch + (d : Int) * secPerDay
    if weekdayOf dayDate = 5 ∨ weekdayOf dayDate = 6 then
      windowCandidates minStartTime startSearch ds
    else
      dayCandidates minStartTime dayDate ++ windowCandidates minStartTime startSearch ds

/-- Modelled from the spec: the candidate windows of one invocation of
`GenerateAvailableSlots`. -/
def candidateSlots (referenceTime : Int) : List (Int × Int) :=
  windowCandidates (referenceTime + 2 * 3600) referenceTime (List.range maxDays)

/-- Modelled from the spec: the number of candidate slots excluded as busy. -/
def excludedCount (busy : List TimeRange) (referenceTime : Int) : Nat :=
  ((candidateSlots referenceTime).filter (fun c => isBusy c.1 c.2 busy)).length

/-- Concatenation of rendered pieces, in order. -/
def strConcat : List String → String
  | [] => ""
  | s :: rest => s ++ strConcat rest

/-- Modelled from the spec (§4.4): the distinct display dates of the
slots, in first-seen order. -/
def firstSeenDates (slots : List TimeSlot) : List Int :=
  slots.foldl (fun acc s => if s.Date ∈ acc then acc else acc ++ [s.Date]) []

/-- Modelled from the spec (§4.4): the display times of the slots carrying
a given display date, in slot order. -/
def timesOn (slots : List TimeSlot) (d : Int) : List Int :=
  (slots.filter (fun s => s.Date == d)).map TimeSlot.Time

/-- Modelled from the spec (§4.4): one rendered date section: the date
heading, at most 6 time lines, and a "more times" summary line exactly
when more than 6 times exist on that date, closed by a blank line. -/
def specDateBlock (slots : List TimeSlot) (d : Int) : String :=
  dateText d ++ ":\n" ++
    strConcat (((timesOn slots d).take 6).map (fun t => "  • " ++ timeText t ++ "\n")) ++
    (if 6 < (timesOn slots d).length then
      "  • ..." ++ toString ((timesOn slots d).length - 6) ++ " more times available\n"
    else "") ++ "\n"

/-- Modelled from the spec (§4.4), word for word: group the slots by
display date preserving first-seen order; render at most 5 dates, each
with at most 6 times and a summary line exactly when more exist; append
an "and N more days" line exactly when more than 5 dates exist; when no
slot exists, render the fully-booked message naming the days-examined
count instead of a slot list; always end with the contact line naming the
agent and email. -/
def specFormatMessage (prop : PropertyInfo) (agent : AgentInfo)
    (avail : Availability) : String :=
  let header := "🏠 PROPERTY: " ++ prop.Name ++ "\n📍 " ++ prop.Address ++ ", " ++
    prop.City ++ ", " ++ prop.State ++ "\n\n" ++
    "👤 LEASING AGENT: " ++ agent.Name ++ "\n📧 Email: " ++ agent.Email ++ "\n\n"
  if avail.Slots = [] then
    header ++ "📅 SHOWING AVAILABILITY:\nNo available time slots found in the next " ++
      toString avail.DaysChecked ++ " days.\n" ++
      agent.Name ++ "'s calendar is fully booked.\n\n" ++
      "📞 Please contact " ++ agent.Name ++ " directly at " ++ agent.Email ++
      " to schedule."
  else
    header ++ "📅 AVAILABLE SHOWING TIMES:\n\n" ++
      strConcat (((firstSeenDates avail.Slots).take 5).map (specDateBlock avail.Slots)) ++
      (if 5 < (firstSeenDates avail.Slots).length then
        "...and " ++ toString ((firstSeenDates avail.Slots).length - 5) ++
          " more days with availability\n"
      else "") ++
      "\n📞 Contact " ++ agent.Name ++ " at " ++ agent.Email ++
      " to schedule your showing."

/-- Modelled from the spec (testable properties): the number of
non-Saturday, non-Sunday days among the 7 consecutive calendar days
starting at the reference instant's day. -/
def businessDayCount (referenceTime : Int) : Nat :=
  ((List.range 7).filter (fun (d : Nat) =>
    decide (¬((dayIndexOf referenceTime + d) % 7 = 5 ∨
      (dayIndexOf referenceTime + d) % 7 = 6)))).length

/-- Modelled from the spec (testable properties): the busy intervals are
pairwise non-overlapping under half-open semantics. -/
def NonOverlapping (busy : List TimeRange) : Prop :=
  busy.Pairwise (fun a b => a.End ≤ b.Start ∨ b.End ≤ a.Start)

/-! ### Invariants of the slot walk -/

theorem slotLoop_mem (busy : List TimeRange) (workEnd : Int) :
    ∀ (fuel : Nat) (curr : Int) (s : TimeSlot),
      s ∈ (slotLoop busy workEnd fuel curr).1 →
      curr ≤ s.Start ∧ s.End = s.Start + slotDurationSec ∧ s.End ≤ workEnd ∧
        s.Date = dayIndexOf s.Start ∧ s.Time = secondOfDay s.Start := by
  intro fuel
  induction fuel with
  | zero => intro curr s h; simp [slotLoop] at h
  | succ n ih =>
    intro curr s h
    simp only [slotLoop] at h
    by_cases hcond : curr + slotDurationSec ≤ workEnd
    · rw [if_pos hcond] at h
      by_cases hb : isBusy curr (curr + slotDurationSec) busy = true
      · rw [if_pos hb] at h
        have := ih (curr + slotDurationSec) s h
        simp only [slotDurationSec] at *
        refine ⟨by omega, this.2.1, this.2.2.1, this.2.2.2⟩
      · rw [if_neg hb] at h
        rcases List.mem_cons.mp h with hs | hs
        · subst hs
          simp only [slotDurationSec] at hcond
          simp [formatSlot, slotDurationSec, hcond]
        · have := ih (curr + slotDurationSec) s hs
          simp only [slotDurationSec] at *
          refine ⟨by omega, this.2.1, this.2.2.1, this.2.2.2⟩
    · rw [if_neg hcond] at h
      simp at h

theorem slotLoop_count_indep (b1 b2 : List TimeRange) (workEnd : Int) :
    ∀ (fuel : Nat) (curr : Int),
      (slotLoop b1 workEnd fuel curr).2 = (slotLoop b2 workEnd fuel curr).2 := by
  intro fuel
  induction fuel with
  | zero => intro curr; rfl
  | succ n ih =>
    intro curr
    simp only [slotLoop]
    by_cases hcond : curr + slotDurationSec ≤ workEnd
    · rw [if_pos hcond, if_pos hcond]
      simp only [ih]
    · rw [if_neg hcond, if_neg hcond]

theorem processDay_mem (busy : List TimeRange) (minStartTime dayDate : Int) (s : TimeSlot)
    (h : s ∈ (processDay busy minStartTime dayDate).1) :
    dayIndexOf dayDate * secPerDay + workStartSec ≤ s.Start ∧
      s.End = s.Start + slotDurationSec ∧
      s.End ≤ (if weekdayOf dayDate = 4 then dayIndexOf dayDate * secPerDay + fridayEndSec
        else dayIndexOf dayDate * secPerDay + workEndSec) ∧
      s.Date = dayIndexOf s.Start ∧ s.Time = secondOfDay s.Start := by
  simp only [processDay, slotWalk] at h
  set we := if weekdayOf dayDate = 4 then dayIndexOf dayDate * secPerDay + fridayEndSec
    else dayIndexOf dayDate * secPerDay + workEndSec with hwe
  by_cases hstart : dayIndexOf dayDate * secPerDay + workStartSec < minStartTime
  · rw [if_pos hstart] at h
    by_cases hskip : we < minStartTime
    · rw [if_pos hskip] at h
      simp at h
    · rw [if_neg hskip] at h
      have hm := slotLoop_mem busy we _ _ s h
      have key : dayIndexOf dayDate * secPerDay + workStartSec ≤
          truncateMinute (minStartTime +
            (if minuteOf minStartTime % 30 ≠ 0 then 30 - minuteOf minStartTime % 30
              else 0) * 60) := by
        simp only [truncateMinute, minuteOf, workStartSec, secPerDay] at *
        by_cases hr : minStartTime / 60 % 60 % 30 = 0 <;> simp [hr] <;> omega
      exact ⟨le_trans key hm.1, hm.2.1, hm.2.2.1, hm.2.2.2⟩
  · rw [if_neg hstart] at h
    have hm := slotLoop_mem busy we _ _ s h
    exact ⟨hm.1, hm.2.1, hm.2.2.1, hm.2.2.2⟩

theorem processDay_minStart (busy : List TimeRange) (minStartTime dayDate : Int)
    (halign : minStartTime % 60 = 0) (s : TimeSlot)
    (h : s ∈ (processDay busy minStartTime dayDate).1) : minStartTime ≤ s.Start := by
  simp only [processDay, slotWalk] at h
  set we := if weekdayOf dayDate = 4 then dayIndexOf dayDate * secPerDay + fridayEndSec
    else dayIndexOf dayDate * secPerDay + workEndSec with hwe
  by_cases hstart : dayIndexOf dayDate * secPerDay + workStartSec < minStartTime
  · rw [if_pos hstart] at h
    by_cases hskip : we < minStartTime
    · rw [if_pos hskip] at h
      simp at h
    · rw [if_neg hskip] at h
      have hm := slotLoop_mem busy we _ _ s h
      have key : minStartTime ≤
          truncateMinute (minStartTime +
            (if minuteOf minStartTime % 30 ≠ 0 then 30 - minuteOf minStartTime % 30
              else 0) * 60) := by
        simp only [truncateMinute, minuteOf] at *
        by_cases hr : minStartTime / 60 % 60 % 30 = 0 <;> simp [hr] <;> omega
      exact le_trans key hm.1
  · rw [if_neg hstart] at h
    have hm := slotLoop_mem busy we _ _ s h
    simp only [not_lt] at hstart
    exact le_trans hstart hm.1

theorem processDay_count_indep (b1 b2 : List TimeRange) (minStartTime dayDate : Int) :
    (processDay b1 minStartTime dayDate).2 = (processDay b2 minStartTime dayDate).2 := by
  simp only [processDay, slotWalk]
  set we := if weekdayOf dayDate = 4 then dayIndexOf dayDate * secPerDay + fridayEndSec
    else dayIndexOf dayDate * secPerDay + workEndSec with hwe
  by_cases hstart : dayIndexOf dayDate * secPerDay + workStartSec < minStartTime
  · rw [if_pos hstart, if_pos hstart]
    by_cases hskip : we < minStartTime
    · rw [if_pos hskip, if_pos hskip]
    · rw [if_neg hskip, if_neg hskip]
      exact slotLoop_count_indep b1 b2 we _ _
  · rw [if_neg hstart, if_neg hstart]
    exact slotLoop_count_indep b1 b2 we _ _

theorem dayLoop_mem (busy : List TimeRange) (minStartTime startSearch : Int) :
    ∀ (ds : List Nat) (s : TimeSlot), s ∈ (dayLoop busy minStartTime startSearch ds).1 →
      ∃ d ∈ ds, ¬(weekdayOf (startSearch + (d : Int) * secPerDay) = 5 ∨
          weekdayOf (startSearch + (d : Int) * secPerDay) = 6) ∧
        s ∈ (processDay busy minStartTime (startSearch + (d : Int) * secPerDay)).1 := by
  intro ds
  induction ds with
  | nil => intro s h; simp [dayLoop] at h
  | cons d rest ih =>
    intro s h
    simp only [dayLoop] at h
    by_cases hw : weekdayOf (startSearch + (d : Int) * secPerDay) = 5 ∨
        weekdayOf (startSearch + (d : Int) * secPerDay) = 6
    · rw [if_pos hw] at h
      obtain ⟨d', hd', hw', hmem⟩ := ih s h
      exact ⟨d', List.mem_cons_of_mem _ hd', hw', hmem⟩
    · rw [if_neg hw] at h
      rcases List.mem_append.mp h with h1 | h2
      · exact ⟨d, List.mem_cons_self _ _, hw, h1⟩
      · obtain ⟨d', hd', hw', hmem⟩ := ih s h2
        exact ⟨d', List.mem_cons_of_mem _ hd', hw', hmem⟩

theorem dayLoop_daysChecked (busy : List TimeRange) (minStartTime startSearch : Int) :
    ∀ ds : List Nat, (dayLoop busy minStartTime startSearch ds).2.1 =
      (ds.filter (fun (d : Nat) =>
        decide (¬(weekdayOf (startSearch + (d : Int) * secPerDay) = 5 ∨
          weekdayOf (startSearch + (d : Int) * secPerDay) = 6)))).length := by
  intro ds
  induction ds with
  | nil => rfl
  | cons d rest ih =>
    simp only [dayLoop]
    by_cases hw : weekdayOf (startSearch + (d : Int) * secPerDay) = 5 ∨
        weekdayOf (startSearch + (d : Int) * secPerDay) = 6
    · rw [if_pos hw]
      simp only [List.filter_cons]
      rw [if_neg (by simp [hw])]
      exact ih
    · rw [if_neg hw]
      simp only [List.filter_cons]
      rw [if_pos (by simp [hw])]
      rw [List.length_cons, ih]

theorem dayLoop_counts_indep (b1 b2 : List TimeRange) (minStartTime startSearch : Int) :
    ∀ ds : List Nat,
      (dayLoop b1 minStartTime startSearch ds).2.1 =
        (dayLoop b2 minStartTime startSearch ds).2.1 ∧
      (dayLoop b1 minStartTime startSearch ds).2.2 =
        (dayLoop b2 minStartTime startSearch ds).2.2 := by
  intro ds
  induction ds with
  | nil => exact ⟨rfl, rfl⟩
  | cons d rest ih =>
    simp only [dayLoop]
    by_cases hw : weekdayOf (startSearch + (d : Int) * secPerDay) = 5 ∨
        weekdayOf (startSearch + (d : Int) * secPerDay) = 6
    · rw [if_pos hw, if_pos hw]
      exact ih
    · rw [if_neg hw, if_neg hw]
      exact ⟨by simp [ih.1], by simp [ih.2, processDay_count_indep b1 b2]⟩

theorem slotLoop_total_eq_candidates (busy : List TimeRange) (workEnd : Int) :
    ∀ (fuel : Nat) (curr : Int),
      (slotLoop busy workEnd fuel curr).2 = (candidateLoop workEnd fuel curr).length := by
  intro fuel
  induction fuel with
  | zero => intro curr; rfl
  | succ n ih =>
    intro curr
    simp only [slotLoop, candidateLoop]
    by_cases hcond : curr + slotDurationSec ≤ workEnd
    · rw [if_pos hcond, if_pos hcond]
      simp [ih]
    · rw [if_neg hcond, if_neg hcond]
      rfl

theorem slotLoop_free_eq_candidates (busy : List TimeRange) (workEnd : Int) :
    ∀ (fuel : Nat) (curr : Int),
      (slotLoop busy workEnd fuel curr).1.length =
        ((candidateLoop workEnd fuel curr).filter
          (fun c => !isBusy c.1 c.2 busy)).length := by
  intro fuel
  induction fuel with
  | zero => intro curr; rfl
  | succ n ih =>
    intro curr
    simp only [slotLoop, candidateLoop]
    by_cases hcond : curr + slotDurationSec ≤ workEnd
    · rw [if_pos hcond, if_pos hcond]
      simp only [List.filter_cons]
      by_cases hb : isBusy curr (curr + slotDurationSec) busy = true
      · rw [if_pos hb, if_neg (by simp [hb])]
        simpa using ih (curr + slotDurationSec)
      · rw [if_neg hb, if_pos (by simp [Bool.not_eq_true] at hb; simp [hb])]
        simpa using ih (curr + slotDurationSec)
    · rw [if_neg hcond, if_neg hcond]
      rfl

theorem processDay_total_eq_candidates (busy : List TimeRange) (minStartTime dayDate : Int) :
    (processDay busy minStartTime dayDate).2 =
      (dayCandidates minStartTime dayDate).length := by
  simp only [processDay, dayCandidates, slotWalk]
  set we := if weekdayOf dayDate = 4 then dayIndexOf dayDate * secPerDay + fridayEndSec
    else dayIndexOf dayDate * secPerDay + workEndSec with hwe
  by_cases hstart : dayIndexOf dayDate * secPerDay + workStartSec < minStartTime
  · rw [if_pos hstart, if_pos hstart]
    by_cases hskip : we < minStartTime
    · rw [if_pos hskip, if_pos hskip]
      rfl
    · rw [if_neg hskip, if_neg hskip]
      exact slotLoop_total_eq_candidates busy we _ _
  · rw [if_neg hstart, if_neg hstart]
    exact slotLoop_total_eq_candidates busy we _ _

theorem processDay_free_eq_candidates (busy : List TimeRange) (minStartTime dayDate : Int) :
    (processDay busy minStartTime dayDate).1.length =
      ((dayCandidates minStartTime dayDate).filter
        (fun c => !isBusy c.1 c.2 busy)).length := by
  simp only [processDay, dayCandidates, slotWalk]
  set we := if weekdayOf dayDate = 4 then dayIndexOf dayDate * secPerDay + fridayEndSec
    else dayIndexOf dayDate * secPerDay + workEndSec with hwe
  by_cases hstart : dayIndexOf dayDate * secPerDay + workStartSec < minStartTime
  · rw [if_pos hstart, if_pos hstart]
    by_cases hskip : we < minStartTime
    · rw [if_pos hskip, if_pos hskip]
      rfl
    · rw [if_neg hskip, if_neg hskip]
      exact slotLoop_free_eq_candidates busy we _ _
  · rw [if_neg hstart, if_neg hstart]
    exact slotLoop_free_eq_candidates busy we _ _

theorem dayLoop_total_eq_candidates (busy : List TimeRange) (minStartTime startSearch : Int) :
    ∀ ds : List Nat, (dayLoop busy minStartTime startSearch ds).2.2 =
      (windowCandidates minStartTime startSearch ds).length := by
  intro ds
  induction ds with
  | nil => rfl
  | cons d rest ih =>
    simp only [dayLoop, windowCandidates]
    by_cases hw : weekdayOf (startSearch + (d : Int) * secPerDay) = 5 ∨
        weekdayOf (startSearch + (d : Int) * secPerDay) = 6
    · rw [if_pos hw, if_pos hw]
      exact ih
    · rw [if_neg hw, if_neg hw]
      simp [ih, processDay_total_eq_candidates, Nat.add_comm]

theorem dayLoop_free_eq_candidates (busy : List TimeRange) (minStartTime startSearch : Int) :
    ∀ ds : List Nat, (dayLoop busy minStartTime startSearch ds).1.length =
      ((windowCandidates minStartTime startSearch ds).filter
        (fun c => !isBusy c.1 c.2 busy)).length := by
  intro ds
  induction ds with
  | nil => rfl
  | cons d rest ih =>
    simp only [dayLoop, windowCandidates]
    by_cases hw : weekdayOf (startSearch + (d : Int) * secPerDay) = 5 ∨
        weekdayOf (startSearch + (d : Int) * secPerDay) = 6
    · rw [if_pos hw, if_pos hw]
      exact ih
    · rw [if_neg hw, if_neg hw]
      simp [ih, processDay_free_eq_candidates, List.filter_append]

theorem candidates_partition (busy : List TimeRange) (l : List (Int × Int)) :
    (l.filter (fun c => !isBusy c.1 c.2 busy)).length +
      (l.filter (fun c => isBusy c.1 c.2 busy)).length = l.length := by
  induction l with
  | nil => rfl
  | cons a t ih =>
    cases h : isBusy a.1 a.2 busy <;> simp [List.filter_cons, h] <;> omega

/-! ### The claims -/

/-- C1, counterexample: the claim "no returned TimeSlot starts earlier
than referenceInstant + 2 hours, for every busy list and reference
instant" fails at the reference instant Monday 07:00:30 local (second
25230): `minStart` is 09:00:30, the day start 09:00 is raised to it, the
minute-within-hour is 0 so no 30-minute rounding is added, and
`Truncate(time.Minute)` then drops the 30 seconds, producing a slot that
starts at 09:00:00, 30 seconds before the buffer. -/
theorem minStart_buffer_subminute_violation :
    ((GenerateAvailableSlots [] 25230).1.any
      (fun s => decide (s.Start < 25230 + 2 * 3600))) = true := by
  decide

/-- C1, amended: for every busy list and every reference instant aligned
to a whole minute, no TimeSlot returned by `GenerateAvailableSlots` starts
earlier than referenceInstant + 2 hours. -/
theorem generateAvailableSlots_minStart_buffer_aligned (busy : List TimeRange)
    (referenceTime : Int) (halign : referenceTime % 60 = 0) :
    ∀ s ∈ (GenerateAvailableSlots busy referenceTime).1,
      referenceTime + 2 * 3600 ≤ s.Start := by
  intro s hs
  simp only [GenerateAvailableSlots] at hs
  obtain ⟨d, _, _, hmem⟩ := dayLoop_mem busy _ _ _ s hs
  exact processDay_minStart busy _ _ (by omega) s hmem

/-- C1, witness: at reference instant 0 (a minute-aligned Monday
midnight) the first returned slot, Monday 09:00–09:30, indeed starts
after the 2-hour buffer. -/
theorem generateAvailableSlots_minStart_buffer_aligned_witness :
    (0 : Int) + 2 * 3600 ≤
      ({ Date := 0, Time := 32400, Start := 32400, End := 34200 } : TimeSlot).Start :=
  generateAvailableSlots_minStart_buffer_aligned [] 0 (by decide)
    { Date := 0, Time := 32400, Start := 32400, End := 34200 } (by decide)

/-- C2, counterexample: with reference instant Friday 14:00 local (second
396000: day 4 is a Friday, second-of-day 50400) and no busy intervals,
`GenerateAvailableSlots` produces no slot at all on that Friday — the
2-hour buffer pushes the day start to 16:00, past Friday's 15:30 end — so
the claimed last Friday slot 15:00–15:30 does not exist. -/
theorem friday_reference_scenario_ce :
    ((GenerateAvailableSlots [] 396000).1.filter (fun s => s.Date == 4)) = [] := by
  decide

/-- C2, amended: with reference instant Friday 13:00 local (second
392400) and an empty busy list, the slots produced for that Friday are
exactly the single slot 15:00–15:30 (so the last Friday slot is
15:00–15:30 and no 15:30–16:00 slot is produced); with the claim's
reference instant Friday 14:00 local, no Friday slot is produced at all. -/
theorem friday_reference_scenario_amended :
    ((GenerateAvailableSlots [] 392400).1.filter (fun s => s.Date == 4)) =
      [{ Date := 4, Time := 54000, Start := 399600, End := 401400 }] ∧
    ((GenerateAvailableSlots [] 396000).1.filter (fun s => s.Date == 4)) = [] := by
  exact ⟨by decide, by decide⟩

/-- C3: a candidate slot `[s, e)` is excluded as busy iff some busy
interval `[bs, be)` satisfies `s < be` and `e > bs` (strict half-open
overlap); in particular the busy interval `[09:00, 09:30)` does not
exclude the touching candidate `[09:30, 10:00)`. -/
theorem isBusy_overlap_iff :
    (∀ (start stop : Int) (busy : List TimeRange),
      isBusy start stop busy = true ↔
        ∃ b ∈ busy, start < b.End ∧ b.Start < stop) ∧
      isBusy (9 * 3600 + 1800) (10 * 3600)
        [{ Start := 9 * 3600, End := 9 * 3600 + 1800 }] = false := by
  constructor
  · intro s e busy
    simp [isBusy]
  · decide

/-- C4: for every busy list and reference instant, the `daysChecked`
value returned by `GenerateAvailableSlots` equals exactly the number of
non-Saturday, non-Sunday days among the 7 consecutive calendar days
starting at the reference day (weekend days never count; a weekday fully
consumed by the buffer still counts). -/
theorem daysChecked_eq_businessDayCount (busy : List TimeRange) (referenceTime : Int) :
    (GenerateAvailableSlots busy referenceTime).2.1 = businessDayCount referenceTime := by
  simp only [GenerateAvailableSlots]
  rw [dayLoop_daysChecked]
  simp only [businessDayCount, maxDays]
  congr 1
  apply List.filter_congr
  intro d _
  have hweek : weekdayOf (referenceTime + (d : Int) * secPerDay) =
      (dayIndexOf referenceTime + d) % 7 := by
    simp only [weekdayOf, dayIndexOf, secPerDay]
    omega
  rw [hweek]

/-- C5: for every non-overlapping busy list and every reference instant,
the `totalSlots` count returned by `GenerateAvailableSlots` equals the
number of emitted free slots plus the number of candidate slots excluded
as busy. -/
theorem totalSlots_eq_free_add_excluded (busy : List TimeRange) (referenceTime : Int)
    (_hnov : NonOverlapping busy) :
    (GenerateAvailableSlots busy referenceTime).2.2 =
      (GenerateAvailableSlots busy referenceTime).1.length +
        excludedCount busy referenceTime := by
  simp only [GenerateAvailableSlots, excludedCount, candidateSlots]
  rw [dayLoop_total_eq_candidates, dayLoop_free_eq_candidates]
  have hpart := candidates_partition busy
    (windowCandidates (referenceTime + 2 * 3600) referenceTime (List.range maxDays))
  omega

/-- C5, witness: at reference 0 with the single busy interval
`[09:30, 10:00)` (trivially non-overlapping) the counts agree. -/
theorem totalSlots_eq_free_add_excluded_witness :
    NonOverlapping [{ Start := 34200, End := 36000 }] ∧
      (GenerateAvailableSlots [{ Start := 34200, End := 36000 }] 0).2.2 =
        (GenerateAvailableSlots [{ Start := 34200, End := 36000 }] 0).1.length +
          excludedCount [{ Start := 34200, End := 36000 }] 0 :=
  ⟨List.pairwise_singleton _ _,
    totalSlots_eq_free_add_excluded [{ Start := 34200, End := 36000 }] 0
      (List.pairwise_singleton _ _)⟩

/-- C6: every slot returned by `GenerateAvailableSlots` falls on a
non-Saturday, non-Sunday local day, and a slot falling on a Friday ends
no later than 15:30 local. -/
theorem slots_within_business_days (busy : List TimeRange) (referenceTime : Int)
    (s : TimeSlot) (hs : s ∈ (GenerateAvailableSlots busy referenceTime).1) :
    weekdayOf s.Start ≠ 5 ∧ weekdayOf s.Start ≠ 6 ∧
      (weekdayOf s.Start = 4 → s.End ≤ dayIndexOf s.Start * secPerDay + fridayEndSec) := by
  simp only [GenerateAvailableSlots] at hs
  obtain ⟨d, hd, hw, hmem⟩ := dayLoop_mem busy _ _ _ s hs
  obtain ⟨h1, h2, h3, _, _⟩ := processDay_mem busy _ _ s hmem
  have hday : dayIndexOf s.Start = dayIndexOf (referenceTime + (d : Int) * secPerDay) := by
    by_cases hf : weekdayOf (referenceTime + (d : Int) * secPerDay) = 4
    · rw [if_pos hf] at h3
      simp only [dayIndexOf, secPerDay, workStartSec, fridayEndSec, slotDurationSec]
        at h1 h2 h3 ⊢
      omega
    · rw [if_neg hf] at h3
      simp only [dayIndexOf, secPerDay, workStartSec, workEndSec, slotDurationSec]
        at h1 h2 h3 ⊢
      omega
  have hwd : weekdayOf s.Start = weekdayOf (referenceTime + (d : Int) * secPerDay) := by
    simp only [weekdayOf, hday]
  push_neg at hw
  refine ⟨by rw [hwd]; exact hw.1, by rw [hwd]; exact hw.2, ?_⟩
  intro h4
  rw [hwd] at h4
  rw [if_pos h4] at h3
  rw [hday]
  exact h3

/-- C6, witness: the slot Monday 09:00–09:30 returned at reference 0 is
on weekday 0 (a business day), which is not Friday. -/
theorem slots_within_business_days_witness :
    weekdayOf (32400 : Int) ≠ 5 ∧ weekdayOf (32400 : Int) ≠ 6 ∧
      (weekdayOf (32400 : Int) = 4 →
        (34200 : Int) ≤ dayIndexOf 32400 * secPerDay + fridayEndSec) :=
  slots_within_business_days [] 0
    { Date := 0, Time := 32400, Start := 32400, End := 34200 } (by decide)

/-- C10: the `daysChecked` and `totalSlots` outputs of
`GenerateAvailableSlots` depend only on the reference instant, never on
the busy list. -/
theorem counts_independent_of_busy (referenceTime : Int) (b1 b2 : List TimeRange) :
    (GenerateAvailableSlots b1 referenceTime).2.1 =
        (GenerateAvailableSlots b2 referenceTime).2.1 ∧
      (GenerateAvailableSlots b1 referenceTime).2.2 =
        (GenerateAvailableSlots b2 referenceTime).2.2 :=
  dayLoop_counts_indep b1 b2 _ _ _

/-- C7: `MapAgent` returns the record of the first group (in input order)
whose normalised label (trim + uppercase) is a key of the static zone
table, with the original non-normalised label attached as `ZoneGroup`;
returns `none` exactly when no label matches; and on
`["ops", "PD2", "pd1"]` it returns the PD2 record (Elizabeth), not PD1. -/
theorem mapAgent_first_match :
    (∀ (pre : List AppFolioGroup) (g : AppFolioGroup) (rest : List AppFolioGroup)
        (a : AgentInfo),
      (∀ g' ∈ pre, PDAgentMap (normalizeGroupName g'.Name) = none) →
      PDAgentMap (normalizeGroupName g.Name) = some a →
      MapAgent (pre ++ g :: rest) = some { a with ZoneGroup := g.Name }) ∧
    (∀ gs : List AppFolioGroup,
      MapAgent gs = none ↔ ∀ g ∈ gs, PDAgentMap (normalizeGroupName g.Name) = none) ∧
    MapAgent [{ ID := "", Name := "ops" }, { ID := "", Name := "PD2" },
        { ID := "", Name := "pd1" }] =
      some { ID := "dcb80b8a-66bd-11ee-b6c3-02094d1ce055", Name := "Elizabeth",
             Email := "elizabeth@ltrealestateco.com", Zone := "PD2",
             ZoneGroup := "PD2" } := by
  refine ⟨?_, ?_, ?_⟩
  · intro pre
    induction pre with
    | nil =>
      intro g rest a _ hg
      simp [MapAgent, hg]
    | cons p ps ih =>
      intro g rest a hpre hg
      have hp : PDAgentMap (normalizeGroupName p.Name) = none :=
        hpre p (List.mem_cons_self _ _)
      simp only [List.cons_append, MapAgent, hp]
      exact ih g rest a (fun g' hg' => hpre g' (List.mem_cons_of_mem _ hg')) hg
  · intro gs
    induction gs with
    | nil => simp [MapAgent]
    | cons g rest ih =>
      cases hg : PDAgentMap (normalizeGroupName g.Name) with
      | some a =>
        simp only [MapAgent, hg]
        constructor
        · intro h
          simp at h
        · intro h
          exact absurd (h g (List.mem_cons_self _ _)) (by simp [hg])
      | none =>
        simp only [MapAgent, hg]
        rw [ih]
        constructor
        · intro h g' hg'
          rcases List.mem_cons.mp hg' with h1 | h1
          · subst h1; exact hg
          · exact h g' h1
        · intro h g' hg'
          exact h g' (List.mem_cons_of_mem _ hg')
  · decide

/-- C7, witness: a single group whose normalised name is the key PD3 maps
to Alexandra's record carrying the original label. -/
theorem mapAgent_first_match_witness :
    MapAgent [{ ID := "", Name := " pd3 " }] =
      some { ID := "4d6b75fd-5791-11f0-b6c3-02094d1ce055", Name := "Alexandra",
             Email := "alexandra@ltrealestateco.com", Zone := "PD3",
             ZoneGroup := " pd3 " } :=
  mapAgent_first_match.1 [] { ID := "", Name := " pd3 " } []
    { ID := "4d6b75fd-5791-11f0-b6c3-02094d1ce055", Name := "Alexandra",
      Email := "alexandra@ltrealestateco.com", Zone := "PD3", ZoneGroup := "" }
    (fun g hg => absurd hg (List.not_mem_nil g)) (by decide)

/-- C8: when the calendar-credential fetch fails after the property and
agent were resolved, the pipeline returns `Success := false`, the
property and agent populated from the already-resolved data, the empty
(zero) availability, and a human-readable message containing the agent's
email address. -/
theorem credential_failure_response (query extractedPropertyID : String)
    (c : CollabResults) (now : Int) (pid : String) (prop : AppFolioProperty)
    (groups : List AppFolioGroup) (agent : AgentInfo)
    (hfound : (if extractedPropertyID ≠ "" then some extractedPropertyID
      else c.searchResult) = some pid)
    (hprop : c.propertyResult = some prop)
    (hgroups : c.groupsResult = some groups)
    (hagent : MapAgent groups = some agent)
    (htoken : c.tokenResult = none) :
    runPipeline query extractedPropertyID c now =
      { Success := false, Property := mapPropertyInfo prop, Agent := agent,
        Availability := Availability.zero,
        Message := "Agent calendar access unavailable.",
        FormattedMsg := "I'd love to schedule a viewing for " ++ prop.Address1 ++
          ", but I can't access " ++ agent.Name ++
          "'s calendar right now. Please email them at " ++ agent.Email ++ "." } ∧
      ∃ s1 s2 : String,
        (runPipeline query extractedPropertyID c now).FormattedMsg =
          s1 ++ agent.Email ++ s2 := by
  have hrun : runPipeline query extractedPropertyID c now =
      { Success := false, Property := mapPropertyInfo prop, Agent := agent,
        Availability := Availability.zero,
        Message := "Agent calendar access unavailable.",
        FormattedMsg := "I'd love to schedule a viewing for " ++ prop.Address1 ++
          ", but I can't access " ++ agent.Name ++
          "'s calendar right now. Please email them at " ++ agent.Email ++ "." } := by
    simp only [runPipeline, hfound, hprop, hgroups, hagent, htoken]
  refine ⟨hrun, ?_⟩
  rw [hrun]
  exact ⟨"I'd love to schedule a viewing for " ++ prop.Address1 ++
    ", but I can't access " ++ agent.Name ++
    "'s calendar right now. Please email them at ", ".", rfl⟩

/-- C8, witness: a concrete invocation in which search, property, groups
and agent mapping succeed and the credential fetch fails. -/
theorem credential_failure_response_witness :
    runPipeline "123 Main St" ""
      { searchResult := some "prop-1",
        propertyResult := some { ID := "prop-1", Name := "Main House",
                                 Address1 := "123 Main St", City := "Portland",
                                 State := "OR", PropertyGroupIds := ["g1"] },
        groupsResult := some [{ ID := "g1", Name := "PD1" }],
        tokenResult := none, busyResult := none } 0 =
      { Success := false,
        Property := mapPropertyInfo { ID := "prop-1", Name := "Main House",
                                      Address1 := "123 Main St", City := "Portland",
                                      State := "OR", PropertyGroupIds := ["g1"] },
        Agent := { ID := "59a26c67-5791-11f0-b6c3-02094d1ce055", Name := "Gracie",
                   Email := "gracie@ltrealestateco.com", Zone := "PD1",
                   ZoneGroup := "PD1" },
        Availability := Availability.zero,
        Message := "Agent calendar access unavailable.",
        FormattedMsg := "I'd love to schedule a viewing for " ++ "123 Main St" ++
          ", but I can't access " ++ "Gracie" ++
          "'s calendar right now. Please email them at " ++
          "gracie@ltrealestateco.com" ++ "." } :=
  (credential_failure_response "123 Main St" ""
    { searchResult := some "prop-1",
      propertyResult := some { ID := "prop-1", Name := "Main House",
                               Address1 := "123 Main St", City := "Portland",
                               State := "OR", PropertyGroupIds := ["g1"] },
      groupsResult := some [{ ID := "g1", Name := "PD1" }],
      tokenResult := none, busyResult := none } 0 "prop-1" _ _ _
    (by decide) rfl rfl (by decide) rfl).1

/-! ### The grouping of `formatMessage` against the spec's wording -/

theorem firstSeenDates_foldl_mem (x : Int) :
    ∀ (slots : List TimeSlot) (acc : List Int),
      x ∈ slots.foldl (fun acc s => if s.Date ∈ acc then acc else acc ++ [s.Date]) acc ↔
        x ∈ acc ∨ ∃ s ∈ slots, s.Date = x := by
  intro slots
  induction slots with
  | nil => intro acc; simp
  | cons s rest ih =>
    intro acc
    rw [List.foldl_cons]
    by_cases h : s.Date ∈ acc
    · rw [if_pos h, ih]
      constructor
      · rintro (ha | ⟨s', hs', he⟩)
        · exact Or.inl ha
        · exact Or.inr ⟨s', List.mem_cons_of_mem _ hs', he⟩
      · rintro (ha | ⟨s', hs', he⟩)
        · exact Or.inl ha
        · rcases List.mem_cons.mp hs' with h1 | h1
          · subst h1
            exact Or.inl (he ▸ h)
          · exact Or.inr ⟨s', h1, he⟩
    · rw [if_neg h, ih]
      constructor
      · rintro (ha | ⟨s', hs', he⟩)
        · rcases List.mem_append.mp ha with h1 | h1
          · exact Or.inl h1
          · exact Or.inr ⟨s, List.mem_cons_self _ _, (List.mem_singleton.mp h1).symm⟩
        · exact Or.inr ⟨s', List.mem_cons_of_mem _ hs', he⟩
      · rintro (ha | ⟨s', hs', he⟩)
        · exact Or.inl (List.mem_append.mpr (Or.inl ha))
        · rcases List.mem_cons.mp hs' with h1 | h1
          · subst h1
            exact Or.inl (List.mem_append.mpr (Or.inr (List.mem_singleton.mpr he.symm)))
          · exact Or.inr ⟨s', h1, he⟩

theorem firstSeenDates_foldl_nodup :
    ∀ (slots : List TimeSlot) (acc : List Int), acc.Nodup →
      (slots.foldl (fun acc s => if s.Date ∈ acc then acc else acc ++ [s.Date]) acc).Nodup := by
  intro slots
  induction slots with
  | nil => intro acc h; simpa using h
  | cons s rest ih =>
    intro acc h
    rw [List.foldl_cons]
    by_cases hmem : s.Date ∈ acc
    · rw [if_pos hmem]
      exact ih acc h
    · rw [if_neg hmem]
      refine ih _ (List.nodup_append.2 ⟨h, List.nodup_singleton _, ?_⟩)
      simp [List.disjoint_singleton, hmem]

theorem firstSeenDates_nodup (slots : List TimeSlot) : (firstSeenDates slots).Nodup :=
  firstSeenDates_foldl_nodup slots [] List.nodup_nil

theorem timesOn_append_single (p : List TimeSlot) (s : TimeSlot) (d : Int) :
    timesOn (p ++ [s]) d =
      timesOn p d ++ (if s.Date = d then [s.Time] else []) := by
  simp only [timesOn, List.filter_append, List.map_append]
  congr 1
  by_cases h : s.Date = d
  · simp [List.filter_cons, h]
  · simp [List.filter_cons, h]

theorem timesOn_eq_nil_of_not_seen (p : List TimeSlot) (d : Int)
    (h : d ∉ firstSeenDates p) : timesOn p d = [] := by
  have hall : ∀ s ∈ p, s.Date ≠ d := by
    intro s hs he
    exact h ((firstSeenDates_foldl_mem d p []).2 (Or.inr ⟨s, hs, he⟩))
  have hfil : List.filter (fun s => s.Date == d) p = [] := by
    rw [List.filter_eq_nil_iff]
    intro a ha
    simpa using hall a ha
  simp only [timesOn, hfil, List.map_nil]

theorem insertSlot_mapped (d t : Int) :
    ∀ (D : List Int) (f : Int → List Int), D.Nodup → (d ∉ D → f d = []) →
      insertSlot (D.map (fun x => (x, f x))) d t =
        (if d ∈ D then D else D ++ [d]).map
          (fun x => (x, f x ++ (if d = x then [t] else []))) := by
  intro D
  induction D with
  | nil =>
    intro f _ hfd
    simp [insertSlot, hfd (by simp)]
  | cons x D' ih =>
    intro f hnd hfd
    simp only [List.map_cons, insertSlot]
    by_cases hxd : x = d
    · rw [if_pos hxd]
      rw [if_pos (by rw [← hxd]; exact List.mem_cons_self _ _)]
      rw [List.map_cons]
      have hxnotin : x ∉ D' := (List.nodup_cons.mp hnd).1
      congr 1
      · rw [if_pos hxd.symm, hxd]
      · refine (List.map_congr_left ?_)
        intro y hy
        have hyd : d ≠ y := by
          intro he
          exact hxnotin (by rw [hxd, he]; exact hy)
        rw [if_neg hyd, List.append_nil]
    · rw [if_neg hxd]
      have hdx : d ≠ x := fun he => hxd he.symm
      have hnd' : D'.Nodup := (List.nodup_cons.mp hnd).2
      have hfd' : d ∉ D' → f d = [] := by
        intro hnot
        exact hfd (by simp [List.mem_cons, hdx, hnot])
      rw [ih f hnd' hfd']
      by_cases hdD : d ∈ D'
      · rw [if_pos hdD, if_pos (List.mem_cons_of_mem _ hdD)]
        rw [List.map_cons]
        congr 1
        rw [if_neg hdx, List.append_nil]
      · rw [if_neg hdD, if_neg (by simp [List.mem_cons, hdD, hdx])]
        rw [List.cons_append, List.map_cons]
        congr 1
        rw [if_neg hdx, List.append_nil]

theorem insertSlot_step (p : List TimeSlot) (s : TimeSlot) :
    insertSlot ((firstSeenDates p).map (fun d => (d, timesOn p d))) s.Date s.Time =
      (firstSeenDates (p ++ [s])).map (fun d => (d, timesOn (p ++ [s]) d)) := by
  have hD := firstSeenDates_nodup p
  have hfd : s.Date ∉ firstSeenDates p → timesOn p s.Date = [] :=
    timesOn_eq_nil_of_not_seen p s.Date
  rw [insertSlot_mapped s.Date s.Time (firstSeenDates p) (timesOn p) hD hfd]
  have hdates : firstSeenDates (p ++ [s]) =
      if s.Date ∈ firstSeenDates p then firstSeenDates p
      else firstSeenDates p ++ [s.Date] := by
    simp only [firstSeenDates, List.foldl_append, List.foldl_cons, List.foldl_nil]
  rw [hdates]
  refine List.map_congr_left ?_
  intro y _
  rw [timesOn_append_single]

theorem groupByDate_eq_spec (slots : List TimeSlot) :
    groupByDate slots = (firstSeenDates slots).map (fun d => (d, timesOn slots d)) := by
  suffices h : ∀ (rest p : List TimeSlot),
      rest.foldl (fun acc s => insertSlot acc s.Date s.Time)
        ((firstSeenDates p).map (fun d => (d, timesOn p d))) =
      (firstSeenDates (p ++ rest)).map (fun d => (d, timesOn (p ++ rest) d)) by
    have h0 := h slots []
    simpa [groupByDate, firstSeenDates, timesOn] using h0
  intro rest
  induction rest with
  | nil => intro p; simp
  | cons s rest ih =>
    intro p
    rw [List.foldl_cons, insertSlot_step p s]
    have h1 := ih (p ++ [s])
    rw [List.append_assoc, List.singleton_append] at h1
    exact h1

/-! ### The rendering loops of `formatMessage` against the spec's wording -/

theorem formatTimesLoop_eq (n : Nat) :
    ∀ (ts : List Int) (i : Nat), i ≤ 6 →
      formatTimesLoop n i ts =
        strConcat ((ts.take (6 - i)).map (fun t => "  • " ++ timeText t ++ "\n")) ++
          (if 6 - i < ts.length then
            "  • ..." ++ toString (n - 6) ++ " more times available\n"
          else "") := by
  intro ts
  induction ts with
  | nil =>
    intro i _
    simp [formatTimesLoop, strConcat]
  | cons t ts ih =>
    intro i hi
    by_cases h6 : i ≥ 6
    · have h0 : 6 - i = 0 := by omega
      simp only [formatTimesLoop, if_pos h6, h0, List.take_zero, List.map_nil]
      rw [if_pos (by simp)]
      simp [strConcat]
    · have hi1 : i + 1 ≤ 6 := by omega
      have h1 : 6 - i = (6 - (i + 1)) + 1 := by omega
      simp only [formatTimesLoop, if_neg h6]
      rw [ih (i + 1) hi1, h1, List.take_succ_cons, List.map_cons]
      have hiff : (6 - (i + 1) + 1 < (t :: ts).length) ↔ (6 - (i + 1) < ts.length) := by
        simp only [List.length_cons]
        omega
      rw [if_congr hiff rfl rfl]
      simp only [strConcat]
      simp [String.append_assoc]

theorem formatDatesLoop_eq :
    ∀ (gs : List (Int × List Int)) (c : Nat), c ≤ 5 →
      formatDatesLoop c gs =
        strConcat ((gs.take (5 - c)).map (fun q =>
          dateText q.1 ++ ":\n" ++ formatTimesLoop q.2.length 0 q.2 ++ "\n")) := by
  intro gs
  induction gs with
  | nil =>
    intro c _
    simp [formatDatesLoop, strConcat]
  | cons q rest ih =>
    intro c hc
    by_cases h5 : c ≥ 5
    · have h0 : 5 - c = 0 := by omega
      simp [formatDatesLoop, if_pos h5, h0, strConcat]
    · have h1 : 5 - c = (5 - (c + 1)) + 1 := by omega
      simp only [formatDatesLoop, if_neg h5]
      rw [ih (c + 1) (by omega), h1, List.take_succ_cons, List.map_cons]
      simp only [strConcat]

/-- C9: `formatMessage` renders exactly what §4.4 of the spec prescribes:
it groups the slots by display date preserving first-seen order, renders
at most 5 dates and at most 6 times per date, appends the "more times"
summary line exactly when more than 6 times exist for a date and the
"more days" line exactly when more than 5 dates exist, renders the
fully-booked message naming the days-examined count when the slot list is
empty, and always ends with the contact line naming the agent and email
(all of which `specFormatMessage` states word for word). -/
theorem formatMessage_renders_spec (prop : PropertyInfo) (agent : AgentInfo)
    (avail : Availability) (totalGenerated : Nat) :
    formatMessage prop agent avail totalGenerated = specFormatMessage prop agent avail := by
  simp only [formatMessage, specFormatMessage]
  by_cases h : avail.Slots = []
  · rw [if_pos h, if_pos h]
  · rw [if_neg h, if_neg h]
    rw [groupByDate_eq_spec, formatDatesLoop_eq _ 0 (by omega)]
    have hmap :
        ((((firstSeenDates avail.Slots).map
            (fun d => (d, timesOn avail.Slots d))).take 5).map (fun q =>
          dateText q.1 ++ ":\n" ++ formatTimesLoop q.2.length 0 q.2 ++ "\n")) =
        ((firstSeenDates avail.Slots).take 5).map (specDateBlock avail.Slots) := by
      rw [← List.map_take, List.map_map]
      refine List.map_congr_left ?_
      intro d _
      simp only [Function.comp]
      rw [formatTimesLoop_eq _ _ 0 (by omega)]
      simp [specDateBlock, String.append_assoc, Nat.sub_zero]
    simp only [Nat.sub_zero]
    rw [hmap]
    simp only [List.length_map]
